import Mathlib

/-!
Verification of the autoPLEX music-metadata cleaner.

The Python sources (plex_music_cleaner.py, apple_music_xml_client.py) are
shallowly embedded below: Python strings are Lean Strings (or, for the
byte-level URL codec, lists of Chars, one Char per byte of the
percent-decoded form), dicts with insertion order are association lists,
the SQLite change log is a list of entries, and the network write boundary
is an explicit outcome parameter.
-/

/- ### Path Normalizer: the percent codec shared by both decoders -/

/-- Hex value of one hex digit character, mirroring the two-digit lookup
table used by the Python standard-library unquote (upper and lower case
both accepted); non-hex characters yield none. -/
def hexVal (c : Char) : Option Nat :=
  if '0' ≤ c && c ≤ '9' then some (c.toNat - 48)
  else if 'A' ≤ c && c ≤ 'F' then some (c.toNat - 55)
  else if 'a' ≤ c && c ≤ 'f' then some (c.toNat - 87)
  else none

/-- Percent-decoding as performed by urllib.parse.unquote: a percent sign
followed by two hex digits becomes the corresponding code point; a percent
sign not followed by two hex digits is kept literally and scanning resumes
at the next character.  Decoded bytes are represented one Char per byte. -/
def unquote : List Char → List Char
  | [] => []
  | c :: h1 :: h2 :: rest2 =>
    if c = '%' then
      match hexVal h1, hexVal h2 with
      | some a, some b => Char.ofNat (16 * a + b) :: unquote rest2
      | _, _ => c :: unquote (h1 :: h2 :: rest2)
    else c :: unquote (h1 :: h2 :: rest2)
  | c :: rest => c :: unquote rest

/-- Upper-case hex digit for a value below 16. -/
def hexUpper (n : Nat) : Char :=
  if n < 10 then Char.ofNat (48 + n) else Char.ofNat (55 + n)

/-- Characters left unencoded by urllib.parse.quote with its default safe
set: RFC 3986 unreserved characters plus the path separator. -/
def quoteSafe (c : Char) : Bool :=
  ('A' ≤ c && c ≤ 'Z') || ('a' ≤ c && c ≤ 'z') || ('0' ≤ c && c ≤ '9') ||
  c = '-' || c = '_' || c = '.' || c = '~' || c = '/'

/-- RFC 3986 percent-encoding of one character (ASCII range). -/
def quoteChar (c : Char) : List Char :=
  if quoteSafe c then [c]
  else ['%', hexUpper (c.toNat / 16), hexUpper (c.toNat % 16)]

/-- RFC 3986 percent-encoding of a path, as urllib.parse.quote does for
ASCII input. -/
def quotePath : List Char → List Char
  | [] => []
  | c :: rest => quoteChar c ++ quotePath rest

/-- Modelled from the spec: the encoded form of a path used in the
round-trip property, namely the file:// scheme prefix followed by the
RFC 3986 percent-encoding of the path. -/
def encodePath (p : List Char) : List Char :=
  "file://".data ++ quotePath p

/-- Splits the remainder of a path after the /Volumes/ marker at its first
separator, as Python path.split with maxsplit 3 does: returns the volume
name segment and the rest, or none when no further separator exists. -/
def splitVolume (tail : List Char) : Option (List Char × List Char) :=
  if tail.contains '/' then
    some (tail.takeWhile (fun c => c ≠ '/'), (tail.dropWhile (fun c => c ≠ '/')).drop 1)
  else none

/-- AppleMusicXMLClient._decode_file_url: strip the file:// prefix,
percent-decode, and when the host convention is Windows rewrite
/Volumes/name/rest into name:/rest (only when a separator follows the
volume name, because the Python split produces fewer than four parts
otherwise) or else drop the single leading slash.  Inputs without the
scheme are undecodable. -/
def decode_file_url (isWindows : Bool) (file_url : List Char) : Option (List Char) :=
  if file_url.take 7 = "file://".data then
    let path := unquote (file_url.drop 7)
    if isWindows && decide (path.head? = some '/') then
      if path.take 9 = "/Volumes/".data then
        match splitVolume (path.drop 9) with
        | some (drive_name, rest_of_path) => some (drive_name ++ ':' :: '/' :: rest_of_path)
        | none => some path
      else
        some (path.drop 1)
    else some path
  else none

/-- AppleMusicClient._decode_apple_file_path: identical decoding logic to
the XML adapter, with an additional guard returning none for an empty
input. -/
def decode_apple_file_path (isWindows : Bool) (encoded_path : List Char) : Option (List Char) :=
  if encoded_path = [] then none
  else if encoded_path.take 7 = "file://".data then
    let path := unquote (encoded_path.drop 7)
    if isWindows && decide (path.head? = some '/') then
      if path.take 9 = "/Volumes/".data then
        match splitVolume (path.drop 9) with
        | some (drive_name, rest_of_path) => some (drive_name ++ ':' :: '/' :: rest_of_path)
        | none => some path
      else
        some (path.drop 1)
    else some path
  else none

/-- Modelled from the spec: the reference decoder exactly as the claim
words it — scheme check, strip, percent-decode, and under the Windows
convention rewrite /Volumes/name/rest to name:/rest while EVERY other
decoded path beginning with a slash has exactly one leading separator
removed. -/
def decodeRefSpec (isWindows : Bool) (s : List Char) : Option (List Char) :=
  if s.take 7 = "file://".data then
    let path := unquote (s.drop 7)
    if isWindows && decide (path.head? = some '/') then
      if path.take 9 = "/Volumes/".data then
        match splitVolume (path.drop 9) with
        | some (drive_name, rest_of_path) => some (drive_name ++ ':' :: '/' :: rest_of_path)
        | none => some (path.drop 1)
      else
        some (path.drop 1)
    else some path
  else none

/-- Modelled from the spec, amended: as decodeRefSpec except that a
decoded path that begins with the /Volumes/ marker but has no separator
after the volume name is returned unchanged, matching both adapters. -/
def decodeRefAmended (isWindows : Bool) (s : List Char) : Option (List Char) :=
  if s.take 7 = "file://".data then
    let path := unquote (s.drop 7)
    if isWindows && decide (path.head? = some '/') then
      if path.take 9 = "/Volumes/".data then
        match splitVolume (path.drop 9) with
        | some (drive_name, rest_of_path) => some (drive_name ++ ':' :: '/' :: rest_of_path)
        | none => some path
      else
        some (path.drop 1)
    else some path
  else none

/- ### Data model of the cleaner -/

/-- Metadata of one source (Apple Music) track, the dict value stored per
path by both adapters. -/
structure SourceMeta where
  title : String
  artist : String
  album : String
deriving Repr, DecidableEq

/-- A managed (Plex) track as the cleaner reads it: rating key, displayed
title, optional per-track artist override (originalTitle), album artist
(grandparentTitle), album (parentTitle), and the raw media-part file path
(none when the track has no media part). -/
structure ManagedTrack where
  ratingKey : String
  title : String
  originalTitle : Option String
  grandparentTitle : String
  parentTitle : String
  filePath : Option String
deriving Repr, DecidableEq

/-- One row of the cleaned table written by CleanLogger.record_change
(the generation timestamp column is not modelled; no claim concerns it). -/
structure ChangeEntry where
  ratingKey : String
  field : String
  old_value : String
  new_value : String
deriving Repr, DecidableEq

/-- os.path.basename for slash-separated paths: the characters after the
last separator (scanning left to right, a separator resets the collected
name). -/
def basenameChars (cs : List Char) : List Char :=
  cs.foldl (fun acc c => if c = '/' then [] else acc ++ [c]) []

/-- os.path.basename for slash-separated paths: the part after the last
separator. -/
def basename (p : String) : String :=
  String.mk (basenameChars p.data)

/- ### Change Log (CleanLogger over the cleaned table) -/

/-- CleanLogger.record_change: INSERT one row; append-only. -/
def record_change (log : List ChangeEntry) (rating_key field old_value new_value : String) :
    List ChangeEntry :=
  log ++ [{ ratingKey := rating_key, field := field,
            old_value := old_value, new_value := new_value }]

/-- CleanLogger.is_track_cleaned: SELECT COUNT(*) over rows with the given
rating key and field, compared against zero. -/
def is_track_cleaned (log : List ChangeEntry) (rating_key field : String) : Bool :=
  decide (0 < (log.filter (fun e => e.ratingKey = rating_key && e.field = field)).length)

/-- CleanLogger.get_cleaned_tracks: SELECT DISTINCT plex_rating_key. -/
def get_cleaned_tracks (log : List ChangeEntry) : List String :=
  (log.map (fun e => e.ratingKey)).dedup

/-- Number of stored entries with exactly the given key, field and values
(used to state that repeated identical record_change calls accumulate). -/
def countEntries (log : List ChangeEntry) (rating_key field old_value new_value : String) : Nat :=
  (log.filter (fun e =>
    e.ratingKey = rating_key && e.field = field &&
    e.old_value = old_value && e.new_value = new_value)).length

/- ### Identity Resolver and Metadata Differ (from clean_all_tracks) -/

/-- The two-tier match of clean_all_tracks: exact dict lookup on the raw
path first, else the first catalog entry (in insertion order) whose
basename equals the basename of the managed path. -/
def resolveTrack (apple_tracks : List (String × SourceMeta)) (file_path : String) :
    Option SourceMeta :=
  match apple_tracks.find? (fun kv => kv.1 = file_path) with
  | some kv => some kv.2
  | none =>
    match apple_tracks.find? (fun kv => basename kv.1 = basename file_path) with
    | some kv => some kv.2
    | none => none

/-- The managed-side current artist used by the cleaner:
getattr(track, originalTitle, None) or track.grandparentTitle — the
override when it is set and non-empty (Python truthiness), else the album
artist. -/
def trackArtist (track : ManagedTrack) : String :=
  match track.originalTitle with
  | some a => if a = "" then track.grandparentTitle else a
  | none => track.grandparentTitle

/-- The field-by-field comparison block of clean_all_tracks and
clean_artist_tracks: one Change Entry per differing field, in the order
title, artist, album, with the managed value as old and the source value
as new. -/
def diffTrack (track : ManagedTrack) (apple_track : SourceMeta) : List ChangeEntry :=
  (if track.title ≠ apple_track.title then
    [{ ratingKey := track.ratingKey, field := "title",
       old_value := track.title, new_value := apple_track.title }] else []) ++
  (if trackArtist track ≠ apple_track.artist then
    [{ ratingKey := track.ratingKey, field := "artist",
       old_value := trackArtist track, new_value := apple_track.artist }] else []) ++
  (if track.parentTitle ≠ apple_track.album then
    [{ ratingKey := track.ratingKey, field := "album",
       old_value := track.parentTitle, new_value := apple_track.album }] else [])

/-- Entries of a change list for one field. -/
def numField (field : String) (ds : List ChangeEntry) : Nat :=
  (ds.filter (fun e => e.field = field)).length

/- ### Managed-library write boundary -/

/-- PlexClient.update_track_metadata: collect the fields that actually
differ from the track's current attributes; with nothing to send return
false; otherwise attempt the edit, returning true on success and false
when the server rejects it (the exception is caught locally, never
propagated).  The edit outcome is the explicit editResult argument. -/
def update_track_metadata (editResult : Except String Unit) (track : ManagedTrack)
    (title artist album : Option String) : Bool :=
  let update_fields : List (String × String) :=
    (match title with
     | some v => if track.title ≠ v then [("title", v)] else []
     | none => []) ++
    (match artist with
     | some v => if track.originalTitle ≠ some v then [("originalTitle", v)] else []
     | none => []) ++
    (match album with
     | some v => if track.parentTitle ≠ v then [("parentTitle", v)] else []
     | none => [])
  if update_fields.isEmpty then false
  else
    match editResult with
    | Except.ok _ => true
    | Except.error _ => false

/- ### Sync Orchestrator: full-library clean -/

/-- The statistics dict of clean_all_tracks. -/
structure Stats where
  total_tracks : Nat
  matched_tracks : Nat
  updated_tracks : Nat
  title_updates : Nat
  artist_updates : Nat
  album_updates : Nat
  skipped_tracks : Nat
deriving Repr, DecidableEq

/-- Everything a full-clean run produces: the statistics, the change log
after the run, and the sequence of metadata writes attempted (rating key
paired with the boolean returned by update_track_metadata). -/
structure RunResult where
  stats : Stats
  log : List ChangeEntry
  writes : List (String × Bool)
deriving Repr, DecidableEq

/-- The body of the clean_all_tracks per-track loop: skip tracks already
in the cleaned set (computed once before the loop), skip tracks without a
file path, resolve against the source catalog, record one change per
differing field, and when anything differed call the write boundary and
count the track as updated.  The boolean returned by the write is ignored
by the loop, exactly as in the Python. -/
def processTrack (apple_tracks : List (String × SourceMeta)) (cleaned_tracks : List String)
    (editResult : String → Except String Unit) (acc : RunResult) (track : ManagedTrack) :
    RunResult :=
  if track.ratingKey ∈ cleaned_tracks then
    { acc with stats.skipped_tracks := acc.stats.skipped_tracks + 1 }
  else
    match track.filePath with
    | none => acc
    | some file_path =>
      match resolveTrack apple_tracks file_path with
      | none => acc
      | some apple_track =>
        let ds := diffTrack track apple_track
        let stats1 := { acc.stats with
          matched_tracks := acc.stats.matched_tracks + 1,
          title_updates := acc.stats.title_updates + numField "title" ds,
          artist_updates := acc.stats.artist_updates + numField "artist" ds,
          album_updates := acc.stats.album_updates + numField "album" ds }
        if ds.isEmpty then
          { acc with stats := stats1 }
        else
          { stats := { stats1 with updated_tracks := stats1.updated_tracks + 1 },
            log := acc.log ++ ds,
            writes := acc.writes ++
              [(track.ratingKey,
                update_track_metadata (editResult track.ratingKey) track
                  (some apple_track.title) (some apple_track.artist)
                  (some apple_track.album))] }

/-- clean_all_tracks: compute the cleaned set once, then fold the
per-track loop over the managed tracks, starting from zeroed statistics
(and total_tracks = number of managed tracks) and the persisted log. -/
def clean_all_tracks (editResult : String → Except String Unit)
    (plex_tracks : List ManagedTrack) (apple_tracks : List (String × SourceMeta))
    (log : List ChangeEntry) : RunResult :=
  let cleaned_tracks := get_cleaned_tracks log
  plex_tracks.foldl (processTrack apple_tracks cleaned_tracks editResult)
    { stats := { total_tracks := plex_tracks.length, matched_tracks := 0,
                 updated_tracks := 0, title_updates := 0, artist_updates := 0,
                 album_updates := 0, skipped_tracks := 0 },
      log := log, writes := [] }

/- ### Sync Orchestrator: playlist sync -/

/-- The statistics dict of sync_playlist. -/
structure SyncStats where
  total_tracks : Nat
  matched_tracks : Nat
  missing_tracks : Nat
deriving Repr, DecidableEq

/-- Everything a playlist sync produces: the statistics, the member list
handed to create_playlist, whether a playlist was created at all, and the
missing-path report (bounded preview of basenames plus overflow count). -/
structure SyncResult where
  stats : SyncStats
  members : List String
  created : Bool
  missingPreview : List String
  missingOverflow : Nat
deriving Repr, DecidableEq

/-- The body of the sync_playlist loop over the source playlist paths:
resolve one path through the managed-library lookup
(find_track_by_filename, modelled as the find parameter); a matched track
is appended to the member list, an unresolved path to the missing list,
and the corresponding counter is incremented. -/
def syncStep (find : String → Option String)
    (acc : SyncStats × List String × List String) (file_path : String) :
    SyncStats × List String × List String :=
  match find file_path with
  | some plex_track =>
    ({ acc.1 with matched_tracks := acc.1.matched_tracks + 1 },
     acc.2.1 ++ [plex_track], acc.2.2)
  | none =>
    ({ acc.1 with missing_tracks := acc.1.missing_tracks + 1 },
     acc.2.1, acc.2.2 ++ [file_path])

/-- sync_playlist: walk the source playlist paths in order through
syncStep; the playlist is created only when at least one track matched;
the first ten missing basenames are reported plus an overflow count. -/
def sync_playlist (find : String → Option String) (apple_track_paths : List String) :
    SyncResult :=
  let r := apple_track_paths.foldl (syncStep find)
    ({ total_tracks := apple_track_paths.length, matched_tracks := 0, missing_tracks := 0 },
     [], [])
  { stats := r.1,
    members := r.2.1,
    created := !r.2.1.isEmpty,
    missingPreview := (r.2.2.take 10).map basename,
    missingOverflow := if r.2.2.length > 10 then r.2.2.length - 10 else 0 }

/- ### XML adapter playlist lookup -/

/-- Contiguous-substring test (the Python in operator on strings),
modelled on the underlying character lists. -/
def strContains (hay needle : List Char) : Bool :=
  needle.isPrefixOf hay ||
    match hay with
    | [] => false
    | _ :: t => strContains t needle

/-- str.lower for the ASCII range, on the underlying character list. -/
def lowerStr (s : String) : String :=
  String.mk (s.data.map Char.toLower)

/-- AppleMusicXMLClient.get_playlist_tracks: exact dict lookup first, then
the first case-insensitively equal name in insertion order, then the first
name containing the query case-insensitively, else the empty list. -/
def get_playlist_tracks_xml (playlists : List (String × List String))
    (playlist_name : String) : List String :=
  match playlists.find? (fun kv => kv.1 = playlist_name) with
  | some kv => kv.2
  | none =>
    match playlists.find? (fun kv => lowerStr kv.1 = lowerStr playlist_name) with
    | some kv => kv.2
    | none =>
      match playlists.find? (fun kv =>
          strContains (lowerStr kv.1).data (lowerStr playlist_name).data) with
      | some kv => kv.2
      | none => []

/- ### End-to-end scenario fixtures (spec section 8) -/

/-- Scenario 1 source catalog: one record at /music/a.mp3. -/
def scenarioCatalog : List (String × SourceMeta) :=
  [("/music/a.mp3", { title := "X", artist := "Y", album := "Z" })]

/-- Scenario 1 managed record: raw path /mnt/music/a.mp3, stale title. -/
def scenarioTrack : ManagedTrack :=
  { ratingKey := "1", title := "Old", originalTitle := none,
    grandparentTitle := "Y", parentTitle := "Z", filePath := some "/mnt/music/a.mp3" }

/-- Scenario 1: first full clean over an empty log. -/
def scenarioRun1 : RunResult :=
  clean_all_tracks (fun _ => Except.ok ()) [scenarioTrack] scenarioCatalog []

/-- Scenario 3: the same full clean re-run over the log scenario 1 left. -/
def scenarioRun2 : RunResult :=
  clean_all_tracks (fun _ => Except.ok ()) [scenarioTrack] scenarioCatalog scenarioRun1.log

/- ### Claim C2: the Metadata Differ is minimal and exact -/

/-- Claim C2: for a matched pair, if title, artist and album (the artist
on the managed side being the resolved current artist) are all exactly
equal then the differ produces no Change Entries; if exactly one of the
three differs it produces exactly one Change Entry, for that field, whose
old value is the current managed value and whose new value is the source
value. -/
theorem diffTrack_minimal (track : ManagedTrack) (src : SourceMeta) :
    (track.title = src.title → trackArtist track = src.artist →
      track.parentTitle = src.album → diffTrack track src = [])
    ∧ (track.title ≠ src.title → trackArtist track = src.artist →
      track.parentTitle = src.album →
      diffTrack track src =
        [{ ratingKey := track.ratingKey, field := "title",
           old_value := track.title, new_value := src.title }])
    ∧ (track.title = src.title → trackArtist track ≠ src.artist →
      track.parentTitle = src.album →
      diffTrack track src =
        [{ ratingKey := track.ratingKey, field := "artist",
           old_value := trackArtist track, new_value := src.artist }])
    ∧ (track.title = src.title → trackArtist track = src.artist →
      track.parentTitle ≠ src.album →
      diffTrack track src =
        [{ ratingKey := track.ratingKey, field := "album",
           old_value := track.parentTitle, new_value := src.album }]) := by
  refine ⟨?_, ?_, ?_, ?_⟩ <;> intro h1 h2 h3 <;> simp [diffTrack, h1, h2, h3]

/-- Witness for C2: a concrete pair differing only in title yields the
single title Change Entry. -/
theorem diffTrack_minimal_witness :
    diffTrack
      { ratingKey := "7", title := "Old", originalTitle := none,
        grandparentTitle := "Y", parentTitle := "Z", filePath := none }
      { title := "X", artist := "Y", album := "Z" } =
      [{ ratingKey := "7", field := "title", old_value := "Old", new_value := "X" }] :=
  (diffTrack_minimal _ _).2.1 (by decide) (by decide) (by decide)

/- ### Claim C3: the Change Log appends and marks cleaned -/

/-- Claim C3: after record_change for an identity and field,
is_track_cleaned on that identity and field is true whatever the values;
and record_change always appends a fresh row, so n identical calls leave
n stored entries. -/
theorem record_change_marks_and_accumulates
    (log : List ChangeEntry) (identity field old_value new_value : String) (n : Nat) :
    is_track_cleaned (record_change log identity field old_value new_value) identity field = true
    ∧ countEntries ((fun l => record_change l identity field old_value new_value)^[n] log)
        identity field old_value new_value
      = countEntries log identity field old_value new_value + n := by
  constructor
  · simp [is_track_cleaned, record_change, List.filter_append]
  · induction n with
    | zero => simp
    | succ k ih =>
      rw [Function.iterate_succ_apply']
      simp only [countEntries, record_change, List.filter_append] at *
      simp [ih]
      omega

/- ### Claim C8: artist override-else-fallback in the differ -/

/-- Claim C8: the current artist value the differ compares against the
source artist is the per-track override when it is present (set to a
non-empty value; Python truthiness treats an empty override as absent),
else the album-artist field, and the artist Change Entry is emitted
exactly when that resolved value differs from the source artist. -/
theorem differ_artist_override_fallback (track : ManagedTrack) (src : SourceMeta) :
    ((diffTrack track src).filter (fun e => e.field = "artist") =
      if trackArtist track = src.artist then []
      else [{ ratingKey := track.ratingKey, field := "artist",
              old_value := trackArtist track, new_value := src.artist }])
    ∧ (∀ a, track.originalTitle = some a → a ≠ "" → trackArtist track = a)
    ∧ (track.originalTitle = none → trackArtist track = track.grandparentTitle)
    ∧ (track.originalTitle = some "" → trackArtist track = track.grandparentTitle) := by
  refine ⟨?_, ?_, ?_, ?_⟩
  · by_cases h1 : track.title = src.title <;>
      by_cases h2 : trackArtist track = src.artist <;>
      by_cases h3 : track.parentTitle = src.album <;>
      simp [diffTrack, h1, h2, h3, List.filter_append]
  · intro a ha hne
    simp [trackArtist, ha, hne]
  · intro h
    simp [trackArtist, h]
  · intro h
    simp [trackArtist, h]

/-- Witness for C8: with a concrete non-empty override the differ
compares against the override value. -/
theorem differ_artist_override_fallback_witness :
    trackArtist
      { ratingKey := "9", title := "T", originalTitle := some "Solo",
        grandparentTitle := "Band", parentTitle := "A", filePath := none } = "Solo" :=
  ((differ_artist_override_fallback _ { title := "T", artist := "Solo", album := "A" }).2.1)
    "Solo" rfl (by decide)

/- ### Helper: find? returns the first satisfying element -/

/-- When find? succeeds it returns the element at the first position
whose predicate holds. -/
theorem find?_first {α : Type} (p : α → Bool) (l : List α) (x : α)
    (h : l.find? p = some x) :
    ∃ n, ∃ hn : n < l.length, l.get ⟨n, hn⟩ = x ∧ p x = true ∧
      ∀ m, ∀ hm : m < l.length, m < n → p (l.get ⟨m, hm⟩) = false := by
  induction l with
  | nil => simp at h
  | cons a t ih =>
    by_cases hpa : p a
    · rw [List.find?_cons_of_pos _ hpa] at h
      refine ⟨0, by simp, ?_, ?_, ?_⟩
      · simpa using (Option.some_injective _ h)
      · have := Option.some_injective _ h
        rw [← this]; exact hpa
      · intro m hm hlt; omega
    · rw [List.find?_cons_of_neg _ hpa] at h
      obtain ⟨n, hn, hget, hpx, hmin⟩ := ih h
      refine ⟨n + 1, by simpa using Nat.succ_lt_succ hn, by simpa using hget, hpx, ?_⟩
      intro m hm hlt
      match m with
      | 0 => simpa using Bool.of_not_eq_true hpa
      | k + 1 =>
        have hk : k < t.length := by simpa using hm
        have := hmin k hk (by omega)
        simpa using this

/- ### Claim C1: tiered identity resolution -/

/-- Claim C1: resolution returns the exact-path record when the catalog
(with its dict-unique keys) contains one; otherwise the first record in
catalog iteration order whose basename equals the basename of the managed
path (case-sensitive); otherwise no match — there is no further fallback
tier. -/
theorem resolveTrack_tiers (apple_tracks : List (String × SourceMeta)) (file_path : String) :
    ((apple_tracks.map Prod.fst).Nodup →
      ∀ meta, (file_path, meta) ∈ apple_tracks →
        resolveTrack apple_tracks file_path = some meta)
    ∧ ((∀ kv ∈ apple_tracks, kv.1 ≠ file_path) →
       ∀ kv0 ∈ apple_tracks, basename kv0.1 = basename file_path →
       ∃ n, ∃ hn : n < apple_tracks.length,
         resolveTrack apple_tracks file_path = some (apple_tracks.get ⟨n, hn⟩).2 ∧
         basename (apple_tracks.get ⟨n, hn⟩).1 = basename file_path ∧
         ∀ m, ∀ hm : m < apple_tracks.length, m < n →
           basename (apple_tracks.get ⟨m, hm⟩).1 ≠ basename file_path)
    ∧ ((∀ kv ∈ apple_tracks, kv.1 ≠ file_path ∧ basename kv.1 ≠ basename file_path) →
       resolveTrack apple_tracks file_path = none) := by
  refine ⟨?_, ?_, ?_⟩
  · intro hnd meta hmem
    cases hfind : apple_tracks.find? (fun kv => kv.1 = file_path) with
    | none =>
      exfalso
      rw [List.find?_eq_none] at hfind
      exact hfind _ hmem (by simp)
    | some kv =>
      have hkv1 : kv.1 = file_path := by simpa using List.find?_some hfind
      have hkvmem : kv ∈ apple_tracks := List.mem_of_find?_eq_some hfind
      have hkveq : kv = (file_path, meta) :=
        List.inj_on_of_nodup_map hnd hkvmem hmem (by simp [hkv1])
      simp only [resolveTrack, hfind, hkveq]
  · intro hne kv0 hkv0 hb
    have hfind1 : apple_tracks.find? (fun kv => kv.1 = file_path) = none := by
      rw [List.find?_eq_none]; intro kv hkv; simpa using hne kv hkv
    cases hfind2 : apple_tracks.find? (fun kv => basename kv.1 = basename file_path) with
    | none =>
      exfalso
      rw [List.find?_eq_none] at hfind2
      exact hfind2 kv0 hkv0 (by simp [hb])
    | some kv =>
      obtain ⟨n, hn, hget, hpx, hmin⟩ := find?_first _ _ _ hfind2
      refine ⟨n, hn, ?_, ?_, ?_⟩
      · simp only [resolveTrack, hfind1, hfind2, hget]
      · rw [hget]; simpa using hpx
      · intro m hm hlt
        have := hmin m hm hlt
        simpa using this
  · intro hall
    have hfind1 : apple_tracks.find? (fun kv => kv.1 = file_path) = none := by
      rw [List.find?_eq_none]; intro kv hkv; simpa using (hall kv hkv).1
    have hfind2 : apple_tracks.find? (fun kv => basename kv.1 = basename file_path) = none := by
      rw [List.find?_eq_none]; intro kv hkv; simpa using (hall kv hkv).2
    simp only [resolveTrack, hfind1, hfind2]

/-- Witness for C1: the exact-match tier fires on a one-record catalog. -/
theorem resolveTrack_tiers_witness :
    resolveTrack [("/music/a.mp3", { title := "X", artist := "Y", album := "Z" })]
      "/music/a.mp3" = some { title := "X", artist := "Y", album := "Z" } :=
  (resolveTrack_tiers _ _).1 (by decide) _ (by decide)

/- ### Claim C5: both decoders against the reference definition -/

/-- Counterexample for C5: under the Windows convention, a decoded path
that begins with the volume marker but has no separator after the volume
name is returned unchanged by the decoder, while the reference definition
stated in the claim strips one leading separator. -/
theorem decode_ref_mismatch :
    decode_file_url true "file:///Volumes/Name".data ≠
      decodeRefSpec true "file:///Volumes/Name".data := by decide

/-- Claim C5 (amended): for every location string both decoders equal one
shared reference definition — undecodable without the scheme, otherwise
strip, percent-decode, and under the Windows convention rewrite
/Volumes/name/rest to name:/rest verbatim, strip exactly one leading
separator from any other slash-initial path not beginning with the
volume marker, and return a volume-marker path without a further
separator unchanged. -/
theorem decoders_agree_with_reference (isWindows : Bool) (s : List Char) :
    decode_file_url isWindows s = decodeRefAmended isWindows s
    ∧ decode_apple_file_path isWindows s = decodeRefAmended isWindows s := by
  constructor
  · rfl
  · by_cases h : s = []
    · subst h; rfl
    · unfold decode_apple_file_path decodeRefAmended
      rw [if_neg h]

/- ### Round trip of the percent codec (for claim C6) -/

/-- Decoding an upper-case hex digit pair recovers the value. -/
theorem hexVal_hexUpper : ∀ n < 16, hexVal (hexUpper n) = some n := by decide

/-- A character the encoder leaves literal is never the escape marker. -/
theorem quoteSafe_ne_percent (c : Char) (h : quoteSafe c = true) : c ≠ '%' := by
  intro hc
  rw [hc] at h
  exact absurd h (by decide)

/-- Prepending a non-escape character commutes with decoding. -/
theorem unquote_cons_of_ne (c : Char) (xs : List Char) (hc : c ≠ '%') :
    unquote (c :: xs) = c :: unquote xs := by
  match xs with
  | [] => simp [unquote, hc]
  | [x] => simp [unquote, hc]
  | x :: y :: t => simp [unquote, hc]

/-- Decoding an encoded escape recovers the escaped ASCII character and
continues with the remainder. -/
theorem unquote_escape (c : Char) (xs : List Char) (hc : c.toNat < 128) :
    unquote ('%' :: hexUpper (c.toNat / 16) :: hexUpper (c.toNat % 16) :: xs) =
      c :: unquote xs := by
  have hdiv : c.toNat / 16 < 16 := Nat.div_lt_of_lt_mul (by omega)
  have hmod : c.toNat % 16 < 16 := Nat.mod_lt _ (by omega)
  have h1 : hexVal (hexUpper (c.toNat / 16)) = some (c.toNat / 16) := hexVal_hexUpper _ hdiv
  have h2 : hexVal (hexUpper (c.toNat % 16)) = some (c.toNat % 16) := hexVal_hexUpper _ hmod
  simp only [unquote, if_pos rfl, h1, h2]
  rw [Nat.div_add_mod, Char.ofNat_toNat]
  simp

/-- Percent-decoding inverts percent-encoding on ASCII input. -/
theorem unquote_quotePath (p : List Char) (h : ∀ c ∈ p, c.toNat < 128) :
    unquote (quotePath p) = p := by
  induction p with
  | nil => rfl
  | cons c rest ih =>
    have hc : c.toNat < 128 := h c (by simp)
    have hr : ∀ x ∈ rest, x.toNat < 128 := fun x hx => h x (by simp [hx])
    rw [quotePath, quoteChar]
    by_cases hs : quoteSafe c
    · rw [if_pos hs, List.singleton_append,
        unquote_cons_of_ne c _ (quoteSafe_ne_percent c hs), ih hr]
    · rw [if_neg hs]
      simpa [unquote_escape c _ hc] using ih hr

/- ### Claim C6: decode of encode is the identity -/

/-- The scheme prefix of an encoded path is recovered exactly by the
seven-character take and drop the decoder performs. -/
theorem scheme_take_drop (xs : List Char) :
    ("file://".data ++ xs).take 7 = "file://".data ∧
    ("file://".data ++ xs).drop 7 = xs := by
  have hlen : ("file://".data).length = 7 := rfl
  constructor
  · rw [← hlen, List.take_left]
  · rw [← hlen, List.drop_left]

/-- Counterexample for C6: under the Windows path convention the decoder
alters a decoded absolute path, so decode of encode is not the identity
there even over plain ASCII input. -/
theorem decode_encode_windows_fails :
    decode_file_url true (encodePath "/a".data) ≠ some "/a".data := by decide

/-- Claim C6 (amended): for every ASCII path, decoding the encoded form
(scheme prefix plus RFC 3986 percent-encoding) returns the path exactly,
whenever the Windows rewriting branch is inactive — either because the
host convention is not Windows, or because the decoded path does not
begin with a separator. -/
theorem decode_encode_roundtrip (p : List Char) (h : ∀ c ∈ p, c.toNat < 128) :
    decode_file_url false (encodePath p) = some p
    ∧ (p.head? ≠ some '/' → decode_file_url true (encodePath p) = some p) := by
  obtain ⟨htake, hdrop⟩ := scheme_take_drop (quotePath p)
  have hdec : unquote ((encodePath p).drop 7) = p := by
    rw [encodePath, hdrop]
    exact unquote_quotePath p h
  constructor
  · rw [decode_file_url, encodePath] at *
    rw [if_pos htake]
    simp only [hdec, Bool.false_and, if_neg]
    simp
  · intro hhead
    rw [decode_file_url, encodePath] at *
    rw [if_pos htake]
    simp only [hdec]
    rw [if_neg (by simpa using hhead)]

/-- Witness for C6: a concrete ASCII path with a space survives the
round trip on a non-Windows host. -/
theorem decode_encode_roundtrip_witness :
    decode_file_url false (encodePath "/music/a b.mp3".data) = some "/music/a b.mp3".data :=
  (decode_encode_roundtrip ("/music/a b.mp3".data) (by decide)).1

/- ### Claim C4: cleaned identities are skipped entirely -/

/-- One loop step on a track whose identity is in the cleaned set only
increments the skipped counter: the log, the writes and every other
counter are untouched. -/
theorem processTrack_cleaned (apple_tracks : List (String × SourceMeta))
    (cleaned : List String) (er : String → Except String Unit)
    (acc : RunResult) (track : ManagedTrack) (h : track.ratingKey ∈ cleaned) :
    processTrack apple_tracks cleaned er acc track =
      { acc with stats.skipped_tracks := acc.stats.skipped_tracks + 1 } := by
  rw [processTrack, if_pos h]

/-- Folding the loop over tracks that are all in the cleaned set only
accumulates the skipped counter. -/
theorem foldl_processTrack_all_cleaned (apple_tracks : List (String × SourceMeta))
    (cleaned : List String) (er : String → Except String Unit)
    (tracks : List ManagedTrack) :
    ∀ acc : RunResult, (∀ t ∈ tracks, t.ratingKey ∈ cleaned) →
      tracks.foldl (processTrack apple_tracks cleaned er) acc =
        { acc with stats.skipped_tracks := acc.stats.skipped_tracks + tracks.length } := by
  induction tracks with
  | nil => intro acc _; simp
  | cons t ts ih =>
    intro acc h
    rw [List.foldl_cons, processTrack_cleaned _ _ _ _ _ (h t (by simp)),
      ih _ (fun x hx => h x (by simp [hx]))]
    have : acc.stats.skipped_tracks + 1 + ts.length
        = acc.stats.skipped_tracks + (ts.length + 1) := by omega
    simp [this]

/-- Claim C4: in a full clean every managed track whose identity is in
the cleaned set is skipped entirely — counted in skipped_tracks, with no
Change Entries and no writes, even for fields never cleaned for it — and
re-running the full clean of end-to-end scenario 1 with unchanged inputs
yields one skipped track and zero updated tracks. -/
theorem clean_all_skips_cleaned (er : String → Except String Unit)
    (tracks : List ManagedTrack) (apple_tracks : List (String × SourceMeta))
    (log : List ChangeEntry)
    (h : ∀ t ∈ tracks, t.ratingKey ∈ get_cleaned_tracks log) :
    clean_all_tracks er tracks apple_tracks log =
      { stats := { total_tracks := tracks.length, matched_tracks := 0,
                   updated_tracks := 0, title_updates := 0, artist_updates := 0,
                   album_updates := 0, skipped_tracks := tracks.length },
        log := log, writes := [] }
    ∧ scenarioRun2.stats.skipped_tracks = 1 ∧ scenarioRun2.stats.updated_tracks = 0 := by
  refine ⟨?_, by decide, by decide⟩
  rw [clean_all_tracks, foldl_processTrack_all_cleaned _ _ _ _ _ h]
  simp

/-- Witness for C4: the scenario 3 re-run concretely skips its one track
and changes nothing. -/
theorem clean_all_skips_cleaned_witness :
    clean_all_tracks (fun _ => Except.ok ()) [scenarioTrack] scenarioCatalog scenarioRun1.log =
      { stats := { total_tracks := 1, matched_tracks := 0, updated_tracks := 0,
                   title_updates := 0, artist_updates := 0, album_updates := 0,
                   skipped_tracks := 1 },
        log := scenarioRun1.log, writes := [] } :=
  (clean_all_skips_cleaned (fun _ => Except.ok ()) [scenarioTrack] scenarioCatalog
    scenarioRun1.log (by decide)).1

/- ### Claim C9: rejected writes are recovered locally -/

/-- One loop step produces the same statistics, the same log and the same
sequence of attempted writes whatever the write outcomes are; only the
ignored success booleans can differ. -/
theorem processTrack_write_invariant (apple_tracks : List (String × SourceMeta))
    (cleaned : List String) (er er' : String → Except String Unit)
    (acc acc' : RunResult) (track : ManagedTrack)
    (h1 : acc.stats = acc'.stats) (h2 : acc.log = acc'.log)
    (h3 : acc.writes.map Prod.fst = acc'.writes.map Prod.fst) :
    (processTrack apple_tracks cleaned er acc track).stats =
      (processTrack apple_tracks cleaned er' acc' track).stats
    ∧ (processTrack apple_tracks cleaned er acc track).log =
      (processTrack apple_tracks cleaned er' acc' track).log
    ∧ (processTrack apple_tracks cleaned er acc track).writes.map Prod.fst =
      (processTrack apple_tracks cleaned er' acc' track).writes.map Prod.fst := by
  unfold processTrack
  by_cases hm : track.ratingKey ∈ cleaned
  · simp [hm, h1, h2, h3]
  · simp only [if_neg hm]
    cases hf : track.filePath with
    | none => simp only [hf]; exact ⟨h1, h2, h3⟩
    | some fp =>
      simp only [hf]
      cases hr : resolveTrack apple_tracks fp with
      | none => simp only [hr]; exact ⟨h1, h2, h3⟩
      | some apple_track =>
        simp only [hr]
        by_cases hd : (diffTrack track apple_track).isEmpty <;>
          simp [hd, h1, h2, h3]

/-- The whole loop fold keeps statistics, log and attempted writes
independent of the write outcomes. -/
theorem foldl_processTrack_write_invariant (apple_tracks : List (String × SourceMeta))
    (cleaned : List String) (er er' : String → Except String Unit)
    (tracks : List ManagedTrack) :
    ∀ acc acc' : RunResult, acc.stats = acc'.stats → acc.log = acc'.log →
      acc.writes.map Prod.fst = acc'.writes.map Prod.fst →
      (tracks.foldl (processTrack apple_tracks cleaned er) acc).stats =
        (tracks.foldl (processTrack apple_tracks cleaned er') acc').stats
      ∧ (tracks.foldl (processTrack apple_tracks cleaned er) acc).log =
        (tracks.foldl (processTrack apple_tracks cleaned er') acc').log
      ∧ (tracks.foldl (processTrack apple_tracks cleaned er) acc).writes.map Prod.fst =
        (tracks.foldl (processTrack apple_tracks cleaned er') acc').writes.map Prod.fst := by
  induction tracks with
  | nil => intro acc acc' h1 h2 h3; exact ⟨h1, h2, h3⟩
  | cons t ts ih =>
    intro acc acc' h1 h2 h3
    rw [List.foldl_cons, List.foldl_cons]
    obtain ⟨g1, g2, g3⟩ :=
      processTrack_write_invariant apple_tracks cleaned er er' acc acc' t h1 h2 h3
    exact ih _ _ g1 g2 g3

/-- Claim C9: a metadata write rejected by the managed library is
recovered locally — update_track_metadata returns false instead of
propagating the failure — and the run never aborts: the statistics, the
recorded Change Entries and the sequence of attempted writes of a full
clean are identical whatever the write outcomes, so processing always
continues with the next record. -/
theorem write_rejection_recovered (er er' : String → Except String Unit)
    (tracks : List ManagedTrack) (apple_tracks : List (String × SourceMeta))
    (log : List ChangeEntry) (e : String) (track : ManagedTrack)
    (title artist album : Option String) :
    update_track_metadata (Except.error e) track title artist album = false
    ∧ (clean_all_tracks er tracks apple_tracks log).stats =
        (clean_all_tracks er' tracks apple_tracks log).stats
    ∧ (clean_all_tracks er tracks apple_tracks log).log =
        (clean_all_tracks er' tracks apple_tracks log).log
    ∧ (clean_all_tracks er tracks apple_tracks log).writes.map Prod.fst =
        (clean_all_tracks er' tracks apple_tracks log).writes.map Prod.fst := by
  refine ⟨?_, ?_⟩
  · have key : ∀ l : List (String × String),
        (if l.isEmpty = true then false
         else match (Except.error e : Except String Unit) with
              | Except.ok _ => true
              | Except.error _ => false) = false := by
      intro l; split <;> rfl
    exact key _
  · rw [clean_all_tracks, clean_all_tracks]
    exact foldl_processTrack_write_invariant _ _ er er' tracks _ _ rfl rfl rfl

/- ### Claim C7: playlist sync membership and counts -/

/-- Resolved and unresolved paths partition the playlist. -/
theorem length_filterMap_add_filter (find : String → Option String) (paths : List String) :
    (paths.filterMap find).length +
      (paths.filter (fun p => (find p).isNone)).length = paths.length := by
  induction paths with
  | nil => rfl
  | cons p ps ih =>
    cases h : find p <;> simp [List.filterMap_cons, h, List.filter_cons] <;> omega

/-- The sync loop fold appends the resolved tracks to the member list and
the unresolved paths to the missing list, in source order, and counts
each. -/
theorem sync_foldl_spec (find : String → Option String) (paths : List String) :
    ∀ (s : SyncStats) (mem mis : List String),
      paths.foldl (syncStep find) (s, mem, mis) =
        ({ s with
            matched_tracks := s.matched_tracks + (paths.filterMap find).length,
            missing_tracks :=
              s.missing_tracks + (paths.filter (fun p => (find p).isNone)).length },
         mem ++ paths.filterMap find,
         mis ++ paths.filter (fun p => (find p).isNone)) := by
  induction paths with
  | nil => intro s mem mis; simp
  | cons p ps ih =>
    intro s mem mis
    rw [List.foldl_cons]
    cases h : find p with
    | none =>
      rw [syncStep]
      simp only [h]
      rw [ih]
      simp [List.filterMap_cons, h, List.filter_cons, Nat.add_assoc, Nat.add_comm 1]
    | some t =>
      rw [syncStep]
      simp only [h]
      rw [ih]
      simp [List.filterMap_cons, h, List.filter_cons, Nat.add_assoc, Nat.add_comm 1]

/-- Counterexample for C7: when no path of the source playlist resolves,
the managed playlist is not created or replaced at all, rather than being
created with zero members. -/
theorem sync_playlist_no_create_when_empty :
    (sync_playlist (fun _ => none) ["/m/a.mp3"]).created = false := by decide

/-- Claim C7 (amended): a playlist sync over n ordered source paths of
which k resolve collects exactly the k resolved tracks in source order
(gaps dropped, not nulled), reports matched_tracks = k and
missing_tracks = n − k, enumerates the missing paths as a bounded preview
of at most ten basenames plus an overflow count, and creates or replaces
the managed playlist with that member list exactly when k is at least
one; with n = 3 and k = 2 the playlist has exactly 2 members and
missing_tracks = 1. -/
theorem sync_playlist_spec (find : String → Option String) (paths : List String) :
    (sync_playlist find paths).members = paths.filterMap find
    ∧ (sync_playlist find paths).created = !(paths.filterMap find).isEmpty
    ∧ (sync_playlist find paths).stats.total_tracks = paths.length
    ∧ (sync_playlist find paths).stats.matched_tracks = (paths.filterMap find).length
    ∧ (sync_playlist find paths).stats.missing_tracks
        = paths.length - (paths.filterMap find).length
    ∧ (sync_playlist find paths).missingPreview
        = ((paths.filter (fun p => (find p).isNone)).take 10).map basename
    ∧ (sync_playlist find paths).missingOverflow
        = (paths.filter (fun p => (find p).isNone)).length - 10
    ∧ (sync_playlist (fun p => if p = "/m/c.mp3" then none else some (basename p))
        ["/m/a.mp3", "/m/b.mp3", "/m/c.mp3"]).members.length = 2
    ∧ (sync_playlist (fun p => if p = "/m/c.mp3" then none else some (basename p))
        ["/m/a.mp3", "/m/b.mp3", "/m/c.mp3"]).stats.missing_tracks = 1 := by
  have hsum := length_filterMap_add_filter find paths
  rw [sync_playlist, sync_foldl_spec]
  refine ⟨by simp, by simp, by simp, by simp, by simp; omega, by simp, ?_,
    by decide, by decide⟩
  simp only [List.nil_append]
  split <;> omega

/- ### Claim C10: three-tier playlist name resolution in the XML adapter -/

/-- Claim C10: the XML adapter resolves a playlist-name query in three
tiers — exact name match first, then the first case-insensitively equal
stored name, then the first stored name containing the query
case-insensitively — and returns the empty list only when no tier
matches (given that only playlists with at least one track are stored),
so a sync request can operate on a playlist whose name merely contains
the requested name. -/
theorem get_playlist_tracks_tiers (playlists : List (String × List String)) (name : String) :
    ((playlists.map Prod.fst).Nodup →
      ∀ ts, (name, ts) ∈ playlists → get_playlist_tracks_xml playlists name = ts)
    ∧ ((∀ kv ∈ playlists, kv.1 ≠ name) →
       ∀ kv0 ∈ playlists, lowerStr kv0.1 = lowerStr name →
       ∃ n, ∃ hn : n < playlists.length,
         get_playlist_tracks_xml playlists name = (playlists.get ⟨n, hn⟩).2 ∧
         lowerStr (playlists.get ⟨n, hn⟩).1 = lowerStr name ∧
         ∀ m, ∀ hm : m < playlists.length, m < n →
           lowerStr (playlists.get ⟨m, hm⟩).1 ≠ lowerStr name)
    ∧ ((∀ kv ∈ playlists, kv.1 ≠ name ∧ lowerStr kv.1 ≠ lowerStr name) →
       ∀ kv0 ∈ playlists, strContains (lowerStr kv0.1).data (lowerStr name).data = true →
       ∃ n, ∃ hn : n < playlists.length,
         get_playlist_tracks_xml playlists name = (playlists.get ⟨n, hn⟩).2 ∧
         strContains (lowerStr (playlists.get ⟨n, hn⟩).1).data (lowerStr name).data = true ∧
         ∀ m, ∀ hm : m < playlists.length, m < n →
           strContains (lowerStr (playlists.get ⟨m, hm⟩).1).data (lowerStr name).data = false)
    ∧ ((∀ kv ∈ playlists, kv.1 ≠ name ∧ lowerStr kv.1 ≠ lowerStr name ∧
          strContains (lowerStr kv.1).data (lowerStr name).data = false) →
       get_playlist_tracks_xml playlists name = [])
    ∧ ((∀ kv ∈ playlists, kv.2 ≠ []) → get_playlist_tracks_xml playlists name = [] →
       ∀ kv ∈ playlists, kv.1 ≠ name ∧ lowerStr kv.1 ≠ lowerStr name ∧
          strContains (lowerStr kv.1).data (lowerStr name).data = false) := by
  refine ⟨?_, ?_, ?_, ?_, ?_⟩
  · intro hnd ts hmem
    cases hfind : playlists.find? (fun kv => kv.1 = name) with
    | none =>
      exfalso
      rw [List.find?_eq_none] at hfind
      exact hfind _ hmem (by simp)
    | some kv =>
      have hkv1 : kv.1 = name := by simpa using List.find?_some hfind
      have hkvmem : kv ∈ playlists := List.mem_of_find?_eq_some hfind
      have hkveq : kv = (name, ts) :=
        List.inj_on_of_nodup_map hnd hkvmem hmem (by simp [hkv1])
      simp only [get_playlist_tracks_xml, hfind, hkveq]
  · intro hne kv0 hkv0 hlow
    have hfind1 : playlists.find? (fun kv => kv.1 = name) = none := by
      rw [List.find?_eq_none]; intro kv hkv; simpa using hne kv hkv
    cases hfind2 : playlists.find? (fun kv => lowerStr kv.1 = lowerStr name) with
    | none =>
      exfalso
      rw [List.find?_eq_none] at hfind2
      exact hfind2 kv0 hkv0 (by simp [hlow])
    | some kv =>
      obtain ⟨n, hn, hget, hpx, hmin⟩ := find?_first _ _ _ hfind2
      refine ⟨n, hn, ?_, ?_, ?_⟩
      · simp only [get_playlist_tracks_xml, hfind1, hfind2, hget]
      · rw [hget]; simpa using hpx
      · intro m hm hlt
        have := hmin m hm hlt
        simpa using this
  · intro hne kv0 hkv0 hsub
    have hfind1 : playlists.find? (fun kv => kv.1 = name) = none := by
      rw [List.find?_eq_none]; intro kv hkv; simpa using (hne kv hkv).1
    have hfind2 : playlists.find? (fun kv => lowerStr kv.1 = lowerStr name) = none := by
      rw [List.find?_eq_none]; intro kv hkv; simpa using (hne kv hkv).2
    cases hfind3 : playlists.find? (fun kv =>
        strContains (lowerStr kv.1).data (lowerStr name).data) with
    | none =>
      exfalso
      rw [List.find?_eq_none] at hfind3
      exact hfind3 kv0 hkv0 hsub
    | some kv =>
      obtain ⟨n, hn, hget, hpx, hmin⟩ := find?_first _ _ _ hfind3
      refine ⟨n, hn, ?_, ?_, ?_⟩
      · simp only [get_playlist_tracks_xml, hfind1, hfind2, hfind3, hget]
      · rw [hget]; exact hpx
      · intro m hm hlt
        simpa using hmin m hm hlt
  · intro hall
    have hfind1 : playlists.find? (fun kv => kv.1 = name) = none := by
      rw [List.find?_eq_none]; intro kv hkv; simpa using (hall kv hkv).1
    have hfind2 : playlists.find? (fun kv => lowerStr kv.1 = lowerStr name) = none := by
      rw [List.find?_eq_none]; intro kv hkv; simpa using (hall kv hkv).2.1
    have hfind3 : playlists.find? (fun kv =>
        strContains (lowerStr kv.1).data (lowerStr name).data) = none := by
      rw [List.find?_eq_none]; intro kv hkv
      simpa using (hall kv hkv).2.2
    simp only [get_playlist_tracks_xml, hfind1, hfind2, hfind3]
  · intro hstored hempty kv hkv
    cases hfind1 : playlists.find? (fun kv => kv.1 = name) with
    | some kvf =>
      exfalso
      have : get_playlist_tracks_xml playlists name = kvf.2 := by
        simp only [get_playlist_tracks_xml, hfind1]
      exact hstored kvf (List.mem_of_find?_eq_some hfind1) (by rw [← this, hempty])
    | none =>
      have h1 : kv.1 ≠ name := by
        rw [List.find?_eq_none] at hfind1
        simpa using hfind1 kv hkv
      cases hfind2 : playlists.find? (fun kv => lowerStr kv.1 = lowerStr name) with
      | some kvf =>
        exfalso
        have : get_playlist_tracks_xml playlists name = kvf.2 := by
          simp only [get_playlist_tracks_xml, hfind1, hfind2]
        exact hstored kvf (List.mem_of_find?_eq_some hfind2) (by rw [← this, hempty])
      | none =>
        have h2 : lowerStr kv.1 ≠ lowerStr name := by
          rw [List.find?_eq_none] at hfind2
          simpa using hfind2 kv hkv
        cases hfind3 : playlists.find? (fun kv =>
            strContains (lowerStr kv.1).data (lowerStr name).data) with
        | some kvf =>
          exfalso
          have : get_playlist_tracks_xml playlists name = kvf.2 := by
            simp only [get_playlist_tracks_xml, hfind1, hfind2, hfind3]
          exact hstored kvf (List.mem_of_find?_eq_some hfind3) (by rw [← this, hempty])
        | none =>
          have h3 : strContains (lowerStr kv.1).data (lowerStr name).data = false := by
            rw [List.find?_eq_none] at hfind3
            simpa using hfind3 kv hkv
          exact ⟨h1, h2, h3⟩

/-- Witness for C10: a query matching a stored name only up to case and
a query merely contained in a stored name both resolve. -/
theorem get_playlist_tracks_tiers_witness :
    get_playlist_tracks_xml [("Chill", ["a"]), ("My Mix", ["b"])] "My Mix" = ["b"] :=
  (get_playlist_tracks_tiers [("Chill", ["a"]), ("My Mix", ["b"])] "My Mix").1
    (by decide) ["b"] (by decide)
